import Mathlib

/-!
Verification of the styleup color-detection pipeline.

The repository contains two near-duplicate PyQt applications
(`src/i2.py`, class `ClothingColorDetector`, ROI-based; `src/image.py`,
class `ColorDetectionApp`, whole-image).  The algorithmic core embedded
here is: region selection (`get_clothing_region`), pixel sampling
(`image[mask == 255]`), k-means clustering (`sklearn.cluster.KMeans`
with `random_state=42`), percentage computation, ranking
(`list.sort(key=..., reverse=True)`, a stable sort) and nearest-name
classification (`rgb_to_color_name`).

Modelling conventions:
* Python ints are `ℤ` (or `ℕ` where the source values are manifestly
  non-negative, such as pixel channels), Python floats are modelled as
  exact rationals `ℚ`.
* `int(x)` (truncation toward zero) is `pyInt`.
* Python `//` (floor division) is `Int.fdiv`.
* numpy basic-slice semantics (negative wrap-around and clipping) are
  embedded in `sliceIdx`.
* `sklearn.cluster.KMeans` is an external library; it is modelled from
  its documented behaviour and the spec's description (§4.3): a fixed
  validation step (`n_samples >= n_clusters`, `n_clusters >= 1`),
  a deterministic seed-derived initialization, Lloyd iterations with a
  fuel bound of 300 (sklearn's `max_iter` default), labels produced by
  nearest-centroid assignment with ties to the lowest index.  The
  ambient randomness that sklearn would consume when `random_state` is
  `None` is modelled as an explicit `entropy` argument; passing
  `random_state=42` (as both source files do) discards it.
-/

/-- An 8-bit RGB pixel as supplied by the decoded image. -/
abbrev RGBNat : Type := ℕ × ℕ × ℕ

/-- An RGB triple after `astype(int)` (Python ints). -/
abbrev RGBInt : Type := ℤ × ℤ × ℤ

/-- A cluster centroid: channel means, as exact rationals. -/
abbrev RGBRat : Type := ℚ × ℚ × ℚ

/-- Python `int(x)` applied to a float: truncation toward zero. -/
def pyInt (q : ℚ) : ℤ := if 0 ≤ q then ⌊q⌋ else ⌈q⌉

/-- Truncate each channel of a centroid, as `cluster_centers_.astype(int)`. -/
def pyIntRGB (c : RGBRat) : RGBInt := (pyInt c.1, pyInt c.2.1, pyInt c.2.2)

/-- Squared Euclidean distance on integer RGB triples, as computed by
`sum((a - b) ** 2 for a, b in zip(rgb, color_rgb))`. -/
def sqDist (a b : RGBInt) : ℤ :=
  (a.1 - b.1) ^ 2 + (a.2.1 - b.2.1) ^ 2 + (a.2.2 - b.2.2) ^ 2

namespace ClothingColorDetector

/-- The 20-entry reference palette of `ClothingColorDetector.rgb_to_color_name`
(`src/i2.py`), in Python 3.7+ dict insertion order. -/
def colors : List (String × RGBInt) :=
  [("Red", (255, 0, 0)),
   ("Green", (0, 255, 0)),
   ("Blue", (0, 0, 255)),
   ("White", (255, 255, 255)),
   ("Black", (0, 0, 0)),
   ("Yellow", (255, 255, 0)),
   ("Purple", (128, 0, 128)),
   ("Orange", (255, 165, 0)),
   ("Pink", (255, 192, 203)),
   ("Gray", (128, 128, 128)),
   ("Brown", (165, 42, 42)),
   ("Navy", (0, 0, 128)),
   ("Teal", (0, 128, 128)),
   ("Maroon", (128, 0, 0)),
   ("Light Blue", (173, 216, 230)),
   ("Dark Green", (0, 100, 0)),
   ("Beige", (245, 245, 220)),
   ("Burgundy", (128, 0, 32)),
   ("Khaki", (240, 230, 140)),
   ("Olive", (128, 128, 0))]

end ClothingColorDetector

namespace ColorDetectionApp

/-- The 14-entry reference palette of `ColorDetectionApp.rgb_to_color_name`
(`src/image.py`), in Python 3.7+ dict insertion order. -/
def colors : List (String × RGBInt) :=
  [("Red", (255, 0, 0)),
   ("Green", (0, 255, 0)),
   ("Blue", (0, 0, 255)),
   ("White", (255, 255, 255)),
   ("Black", (0, 0, 0)),
   ("Yellow", (255, 255, 0)),
   ("Purple", (128, 0, 128)),
   ("Orange", (255, 165, 0)),
   ("Pink", (255, 192, 203)),
   ("Gray", (128, 128, 128)),
   ("Brown", (165, 42, 42)),
   ("Navy", (0, 0, 128)),
   ("Teal", (0, 128, 128)),
   ("Maroon", (128, 0, 0))]

end ColorDetectionApp

/-- The minimum-search loop shared by both `rgb_to_color_name` methods:
`min_distance` starts at `float('inf')` (modelled as `none`) and an entry
replaces the current best exactly when its distance is strictly smaller. -/
def nameLoop (c : RGBInt) : List (String × RGBInt) → Option ℤ → String → String
  | [], _, best => best
  | (n, r) :: t, md, best =>
    match md with
    | none => nameLoop c t (some (sqDist c r)) n
    | some m =>
      if sqDist c r < m then nameLoop c t (some (sqDist c r)) n
      else nameLoop c t (some m) best

/-- Nearest palette name for `ClothingColorDetector` (20-color palette). -/
def ClothingColorDetector.rgb_to_color_name (c : RGBInt) : String :=
  nameLoop c ClothingColorDetector.colors none "Unknown"

/-- Nearest palette name for `ColorDetectionApp` (14-color palette). -/
def ColorDetectionApp.rgb_to_color_name (c : RGBInt) : String :=
  nameLoop c ColorDetectionApp.colors none "Unknown"

/-- Written from the spec's words ("returns the name of the minimum-distance
entry, ties broken by palette declaration order"): the distance and name of
the earliest palette entry achieving the minimal squared distance. -/
def firstNearest (c : RGBInt) : List (String × RGBInt) → Option (ℤ × String)
  | [] => none
  | (n, r) :: t =>
    match firstNearest c t with
    | none => some (sqDist c r, n)
    | some (d', n') =>
      if sqDist c r ≤ d' then some (sqDist c r, n) else some (d', n')

theorem firstNearest_eq_none (c : RGBInt) :
    ∀ l : List (String × RGBInt), firstNearest c l = none → l = [] := by
  intro l h
  cases l with
  | nil => rfl
  | cons e t =>
    obtain ⟨n, r⟩ := e
    simp only [firstNearest] at h
    rcases ht : firstNearest c t with _ | ⟨d', n'⟩ <;> rw [ht] at h
    · exact absurd h (by simp)
    · by_cases h2 : sqDist c r ≤ d' <;> simp [h2] at h

theorem nameLoop_some (c : RGBInt) (t : List (String × RGBInt)) :
    ∀ (m : ℤ) (best : String),
      nameLoop c t (some m) best =
        match firstNearest c t with
        | none => best
        | some (d', n') => if d' < m then n' else best := by
  induction t with
  | nil => intro m best; simp [nameLoop, firstNearest]
  | cons e t ih =>
    intro m best
    obtain ⟨n, r⟩ := e
    simp only [nameLoop, firstNearest]
    rcases ht : firstNearest c t with _ | ⟨d', n'⟩
    · simp only [ih, ht]
    · simp only [ih, ht]
      by_cases h2 : sqDist c r ≤ d'
      · simp only [if_pos h2]
        split_ifs <;> first | rfl | omega
      · simp only [if_neg h2]
        split_ifs <;> first | rfl | omega

theorem nameLoop_none (c : RGBInt) (l : List (String × RGBInt)) :
    nameLoop c l none "Unknown" =
      match firstNearest c l with
      | none => "Unknown"
      | some (_, n') => n' := by
  cases l with
  | nil => rfl
  | cons e t =>
    obtain ⟨n, r⟩ := e
    simp only [nameLoop, firstNearest, nameLoop_some]
    rcases ht : firstNearest c t with _ | ⟨d', n'⟩
    · simp only [ht]
    · simp only [ht]
      by_cases h2 : sqDist c r ≤ d'
      · simp only [if_pos h2]
        split_ifs <;> first | rfl | omega
      · simp only [if_neg h2]
        split_ifs <;> first | rfl | omega

/-- The entry chosen by `firstNearest` is in the list, achieves the minimum
distance, and every strictly earlier entry has strictly larger distance. -/
theorem firstNearest_spec (c : RGBInt) :
    ∀ (l : List (String × RGBInt)) (d : ℤ) (n : String),
      firstNearest c l = some (d, n) →
      ∃ (i : ℕ) (hi : i < l.length),
        (l.get ⟨i, hi⟩).1 = n ∧ sqDist c (l.get ⟨i, hi⟩).2 = d ∧
        (∀ e ∈ l, d ≤ sqDist c e.2) ∧
        (∀ e ∈ l.take i, d < sqDist c e.2) := by
  intro l
  induction l with
  | nil => intro d n h; simp [firstNearest] at h
  | cons e t ih =>
    intro d n h
    obtain ⟨n₀, r₀⟩ := e
    simp only [firstNearest] at h
    rcases ht : firstNearest c t with _ | ⟨d', n'⟩
    · rw [ht] at h
      simp only [Option.some.injEq, Prod.mk.injEq] at h
      have hte : t = [] := firstNearest_eq_none c t ht
      subst hte
      refine ⟨0, by simp, by simp [h.2], by simp [h.1], ?_, by simp⟩
      intro x hx
      rcases List.mem_cons.mp hx with h0 | h0
      · subst h0; simp [h.1]
      · simp at h0
    · rw [ht] at h
      obtain ⟨i, hi, hget, hdist, hmin, hstrict⟩ := ih d' n' ht
      by_cases hle : sqDist c r₀ ≤ d'
      · simp only [if_pos hle] at h
        simp only [Option.some.injEq, Prod.mk.injEq] at h
        refine ⟨0, by simp, by simp [h.2], by simp [h.1], ?_, by simp⟩
        intro x hx
        rcases List.mem_cons.mp hx with h0 | h0
        · subst h0; simp [h.1]
        · have := hmin x h0; omega
      · simp only [if_neg hle] at h
        simp only [Option.some.injEq, Prod.mk.injEq] at h
        obtain ⟨hd, hn⟩ := h
        subst hd; subst hn
        refine ⟨i + 1, by simpa using Nat.succ_lt_succ hi, by simpa using hget,
          by simpa using hdist, ?_, ?_⟩
        · intro x hx
          rcases List.mem_cons.mp hx with h0 | h0
          · have hx2 : sqDist c x.2 = sqDist c r₀ := by rw [h0]
            omega
          · exact hmin x h0
        · intro x hx
          rw [List.take_succ_cons] at hx
          rcases List.mem_cons.mp hx with h0 | h0
          · have hx2 : sqDist c x.2 = sqDist c r₀ := by rw [h0]
            omega
          · exact hstrict x h0

/-- Cast a pixel to rational channels. -/
def toQ (p : RGBNat) : RGBRat := ((p.1 : ℚ), (p.2.1 : ℚ), (p.2.2 : ℚ))

/-- Squared Euclidean distance from a sample to a centroid. -/
def sqDistQ (p : RGBNat) (c : RGBRat) : ℚ :=
  ((p.1 : ℚ) - c.1) ^ 2 + ((p.2.1 : ℚ) - c.2.1) ^ 2 + ((p.2.2 : ℚ) - c.2.2) ^ 2

/-- Minimum search over the remaining centroids: `i` is the index of the next
candidate, `bi`/`bd` the best index and distance so far. -/
def nearestIdxAux (p : RGBNat) : List RGBRat → ℕ → ℕ → ℚ → ℕ
  | [], _, bi, _ => bi
  | c :: t, i, bi, bd =>
    if sqDistQ p c < bd then nearestIdxAux p t (i + 1) i (sqDistQ p c)
    else nearestIdxAux p t (i + 1) bi bd

/-- Index of the nearest centroid (ties to the lowest index, matching
`argmin` over distances). -/
def nearestIdx (p : RGBNat) : List RGBRat → ℕ
  | [] => 0
  | c :: t => nearestIdxAux p t 1 0 (sqDistQ p c)

/-- Arithmetic mean of a list of samples, channelwise. -/
def meanQ (pts : List RGBNat) : RGBRat :=
  ((pts.map (fun p => (p.1 : ℚ))).sum / (pts.length : ℚ),
   (pts.map (fun p => (p.2.1 : ℚ))).sum / (pts.length : ℚ),
   (pts.map (fun p => (p.2.2 : ℚ))).sum / (pts.length : ℚ))

/-- The samples currently assigned to cluster `i`. -/
def ptsWithLabel (data : List RGBNat) (ls : List ℕ) (i : ℕ) : List RGBNat :=
  ((data.zip ls).filter (fun pl => pl.2 == i)).map (fun pl => pl.1)

/-- Centroid update step: each non-empty cluster moves to the mean of its
samples; a cluster with no samples keeps its previous centroid. -/
def updateCenters (k : ℕ) (data : List RGBNat) (ls : List ℕ)
    (cs : List RGBRat) : List RGBRat :=
  (List.range k).map (fun i =>
    let pts := ptsWithLabel data ls i
    if pts.isEmpty then cs.getD i ((0 : ℚ), (0 : ℚ), (0 : ℚ)) else meanQ pts)

/-- Lloyd iterations with a fuel bound (sklearn's `max_iter` default is 300):
update centroids, reassign, stop when the assignment is stable. -/
def lloyd (k : ℕ) (data : List RGBNat) :
    ℕ → List RGBRat → List ℕ → List RGBRat × List ℕ
  | 0, cs, ls => (cs, ls)
  | fuel + 1, cs, ls =>
    let cs' := updateCenters k data ls cs
    let ls' := data.map (fun p => nearestIdx p cs')
    if ls' = ls then (cs', ls') else lloyd k data fuel cs' ls'

/-- Modelled from the spec (§4.3): sklearn's seeded `k-means++`
initialization is modelled as a deterministic seed-derived choice of `k`
initial centroids from the data; the verified claims depend only on its
determinism and on the centroid count being `k`. -/
def initCenters (seed k : ℕ) (data : List RGBNat) : List RGBRat :=
  (List.range k).map (fun i => toQ (data.getD ((seed + i) % data.length) (0, 0, 0)))

/-- Modelled from sklearn's documented `KMeans.fit` behaviour: inputs with
`n_samples < n_clusters` (and `n_clusters < 1`) are rejected with a
`ValueError`; otherwise clustering returns `k` centroids and one label per
sample, each label in `[0, k)`. -/
def kmeansFit (seed k : ℕ) (data : List RGBNat) :
    Except String (List RGBRat × List ℕ) :=
  if k < 1 then .error "Number of clusters should be at least 1"
  else if data.length < k then .error "n_samples should be at least n_clusters"
  else
    let cs := initCenters seed k data
    let ls := data.map (fun p => nearestIdx p cs)
    .ok (lloyd k data 300 cs ls)

/-- Cluster percentages as computed by
`[(sum(labels == i) / len(labels)) * 100 for i in range(n_colors)]`. -/
def percentages (ls : List ℕ) (k : ℕ) : List ℚ :=
  (List.range k).map (fun i => ((List.count i ls : ℚ) / (ls.length : ℚ)) * 100)

/-- The `color_info` list before sorting: truncated centroid colors zipped
with their percentages, in cluster-index order. -/
def clusterInfo (entropy : ℕ) (pixels : List RGBNat) (n_colors : ℕ) :
    Except String (List (RGBInt × ℚ)) :=
  (kmeansFit ((some 42).getD entropy) n_colors pixels).map
    (fun r => (r.1.map pyIntRGB).zip (percentages r.2 n_colors))

/-- One step of stable descending insertion: `x` is placed before the first
element whose percentage it strictly exceeds is not reached, i.e. after
every element with percentage `≥ x.2`. -/
def insertDesc (x : RGBInt × ℚ) : List (RGBInt × ℚ) → List (RGBInt × ℚ)
  | [] => [x]
  | y :: t => if x.2 ≥ y.2 then x :: y :: t else y :: insertDesc x t

/-- Python's `list.sort(key=lambda x: x[1], reverse=True)` is a stable
descending sort; a stable sort by a single key is extensionally unique, so it
is modelled by stable insertion (each element is inserted before the equal-key
elements that follow it in the original order). -/
def sortDesc (l : List (RGBInt × ℚ)) : List (RGBInt × ℚ) :=
  l.foldr insertDesc []

/-- `ClothingColorDetector.detect_colors` (`src/i2.py` lines 183-200): empty
guard, KMeans with `random_state=42`, percentages, sort by percentage
descending.  `entropy` models the ambient randomness sklearn would use had
`random_state` been `None`; it is discarded because the seed is fixed. -/
def ClothingColorDetector.detect_colors (entropy : ℕ) (roi_pixels : List RGBNat)
    (n_colors : ℕ) : Except String (List (RGBInt × ℚ)) :=
  if roi_pixels.length = 0 then .ok []
  else (clusterInfo entropy roi_pixels n_colors).map sortDesc

/-- An image: a height × width grid of 8-bit RGB pixels. -/
structure Img where
  h : ℕ
  w : ℕ
  pix : ℕ → ℕ → RGBNat

/-- `image.reshape(-1, 3)`: all pixels in row-major order. -/
def reshapePixels (img : Img) : List RGBNat :=
  ((List.range img.h).map
    (fun i => (List.range img.w).map (fun j => img.pix i j))).flatten

/-- `ColorDetectionApp.detect_colors` (`src/image.py` lines 133-158): the
whole-image variant; identical clustering and ranking but no empty guard. -/
def ColorDetectionApp.detect_colors (entropy : ℕ) (image : Img)
    (n_colors : ℕ) : Except String (List (RGBInt × ℚ)) :=
  (clusterInfo entropy (reshapePixels image) n_colors).map sortDesc

/-- The ROI rectangle computed by `get_clothing_region`. -/
structure ROI where
  x : ℤ
  y : ℤ
  width : ℤ
  height : ℤ

/-- ROI geometry of `get_clothing_region` (`src/i2.py` lines 108-114):
`roi_width = int(width * 0.6)`, `roi_height = int(height * roi_size)`,
centered with floor division.  The float literal `0.6` is modelled as the
exact rational `3/5`. -/
def roiOf (hgt wid : ℕ) (roi_size : ℚ) : ROI :=
  let roi_width := pyInt ((wid : ℚ) * (3 / 5))
  let roi_height := pyInt ((hgt : ℚ) * roi_size)
  { x := ((wid : ℤ) - roi_width).fdiv 2
    y := ((hgt : ℤ) - roi_height).fdiv 2
    width := roi_width
    height := roi_height }

/-- Normalization of one bound of a Python basic slice over an axis of
length `n`: negative indices wrap by `n`, then the result is clamped
to `[0, n]`. -/
def sliceIdx (n : ℕ) (a : ℤ) : ℤ :=
  if a < 0 then max ((n : ℤ) + a) 0 else min a (n : ℤ)

/-- The boolean mask built by `mask = np.zeros(...)` followed by
`mask[roi_y:roi_y+roi_height, roi_x:roi_x+roi_width] = 255`, with numpy's
slice normalization. -/
def clothingMask (hgt wid : ℕ) (roi_size : ℚ) : ℕ → ℕ → Bool :=
  let r := roiOf hgt wid roi_size
  fun i j =>
    decide (sliceIdx hgt r.y ≤ (i : ℤ) ∧ (i : ℤ) < sliceIdx hgt (r.y + r.height) ∧
      sliceIdx wid r.x ≤ (j : ℤ) ∧ (j : ℤ) < sliceIdx wid (r.x + r.width))

/-- `roi_pixels = image[mask == 255]`: the masked pixels in row-major
order. -/
def samplePixels (img : Img) (mask : ℕ → ℕ → Bool) : List RGBNat :=
  ((List.range img.h).map
    (fun i => ((List.range img.w).filter (fun j => mask i j)).map
      (fun j => img.pix i j))).flatten

/-- The analysis pipeline of `process_image` (`src/i2.py`), restricted to its
algorithmic core: region mask, pixel sampling, dominant-color extraction. -/
def analyze (entropy : ℕ) (img : Img) (f : ℚ) : Except String (List (RGBInt × ℚ)) :=
  ClothingColorDetector.detect_colors entropy
    (samplePixels img (clothingMask img.h img.w f)) 3

/-- `ClothingColorDetector.update_roi`: `self.roi_size = value / 100`
(the slider supplies `value ∈ [20, 80]`). -/
def ClothingColorDetector.update_roi (value : ℕ) : ℚ := (value : ℚ) / 100

/-- A store of image buffers: numpy arrays are mutable, so the copy-then-draw
sequence of `get_clothing_region` is modelled against an explicit store.
Allocated buffer ids are those below `next`. -/
structure Heap where
  mem : ℕ → Option Img
  next : ℕ

/-- Modelled from the spec: `cv2.rectangle(display_image, (roi_x, roi_y),
(roi_x+roi_width, roi_y+roi_height), (0, 255, 0), 2)` draws a green outline
of thickness 2 at the ROI boundary; the exact OpenCV rasterization is not
semantically relevant to any claim, only that it is applied to the copy. -/
def drawRect (img : Img) (r : ROI) : Img :=
  { img with
    pix := fun i j =>
      if (r.y - 1 ≤ (i : ℤ) ∧ (i : ℤ) ≤ r.y + r.height + 1 ∧
          r.x - 1 ≤ (j : ℤ) ∧ (j : ℤ) ≤ r.x + r.width + 1) ∧
         ¬(r.y + 1 < (i : ℤ) ∧ (i : ℤ) < r.y + r.height - 1 ∧
           r.x + 1 < (j : ℤ) ∧ (j : ℤ) < r.x + r.width - 1)
      then (0, 255, 0) else img.pix i j }

/-- `ClothingColorDetector.get_clothing_region` (`src/i2.py` lines 104-127)
against the buffer store: look up the input image, build the mask,
`display_image = image.copy()` allocates a fresh buffer, `cv2.rectangle`
mutates that fresh buffer in place, and the mask and the display buffer are
returned.  `none` models the unreachable case of a dangling buffer id. -/
def ClothingColorDetector.get_clothing_region (hp : Heap) (bid : ℕ)
    (roi_size : ℚ) : Option (Heap × (ℕ → ℕ → Bool) × ℕ) :=
  match hp.mem bid with
  | none => none
  | some img =>
    let r := roiOf img.h img.w roi_size
    let msk := clothingMask img.h img.w roi_size
    let hp1 : Heap :=
      ⟨fun i => if i = hp.next then some img else hp.mem i, hp.next + 1⟩
    let hp2 : Heap :=
      ⟨fun i => if i = hp.next then some (drawRect img r) else hp1.mem i,
       hp1.next⟩
    some (hp2, msk, hp.next)

/-- Membership in an insertion step. -/
theorem insertDesc_mem (x z : RGBInt × ℚ) :
    ∀ l : List (RGBInt × ℚ), z ∈ insertDesc x l ↔ z = x ∨ z ∈ l := by
  intro l
  induction l with
  | nil => simp [insertDesc]
  | cons y t ih =>
    simp only [insertDesc]
    split_ifs with h
    · simp [List.mem_cons]
    · simp only [List.mem_cons, ih]
      tauto

/-- Insertion preserves pairwise descending order of percentages. -/
theorem insertDesc_pairwise (x : RGBInt × ℚ) :
    ∀ l : List (RGBInt × ℚ), l.Pairwise (fun a b => b.2 ≤ a.2) →
      (insertDesc x l).Pairwise (fun a b => b.2 ≤ a.2) := by
  intro l
  induction l with
  | nil => intro _; simp [insertDesc]
  | cons y t ih =>
    intro hp
    rw [List.pairwise_cons] at hp
    simp only [insertDesc]
    split_ifs with h
    · rw [List.pairwise_cons]
      refine ⟨?_, by rw [List.pairwise_cons]; exact hp⟩
      intro z hz
      rcases List.mem_cons.mp hz with h0 | h0
      · subst h0; exact h
      · exact le_trans (hp.1 z h0) h
    · rw [List.pairwise_cons]
      refine ⟨?_, ih hp.2⟩
      intro z hz
      rcases (insertDesc_mem x z t).mp hz with h0 | h0
      · subst h0; exact le_of_lt (lt_of_not_ge h)
      · exact hp.1 z h0

/-- The sorted list is pairwise descending in percentage. -/
theorem sortDesc_pairwise (l : List (RGBInt × ℚ)) :
    (sortDesc l).Pairwise (fun a b => b.2 ≤ a.2) := by
  induction l with
  | nil => simp [sortDesc]
  | cons x t ih => exact insertDesc_pairwise x (sortDesc t) ih

/-- Insertion is a permutation of consing. -/
theorem insertDesc_perm (x : RGBInt × ℚ) :
    ∀ l : List (RGBInt × ℚ), (insertDesc x l).Perm (x :: l) := by
  intro l
  induction l with
  | nil => simp [insertDesc]
  | cons y t ih =>
    simp only [insertDesc]
    split_ifs with h
    · exact List.Perm.refl _
    · exact ((ih.cons y).trans (List.Perm.swap x y t))

/-- Sorting permutes the input. -/
theorem sortDesc_perm (l : List (RGBInt × ℚ)) : (sortDesc l).Perm l := by
  induction l with
  | nil => simp [sortDesc]
  | cons x t ih => exact (insertDesc_perm x (sortDesc t)).trans (ih.cons x)

/-- Elements carrying the key being inserted surface in front. -/
theorem insertDesc_filter_self (x : RGBInt × ℚ) :
    ∀ l : List (RGBInt × ℚ),
      (insertDesc x l).filter (fun e => decide (e.2 = x.2)) =
        x :: l.filter (fun e => decide (e.2 = x.2)) := by
  intro l
  induction l with
  | nil => simp [insertDesc]
  | cons y t ih =>
    simp only [insertDesc]
    split_ifs with h
    · simp [List.filter_cons]
    · have hy : ¬(y.2 = x.2) := by
        intro he; exact h (ge_of_eq he.symm)
      rw [List.filter_cons, List.filter_cons]
      simp only [hy, decide_False]
      exact ih

/-- Filtering at any other key is untouched by insertion. -/
theorem insertDesc_filter_other (x : RGBInt × ℚ) (q : ℚ) (hq : x.2 ≠ q) :
    ∀ l : List (RGBInt × ℚ),
      (insertDesc x l).filter (fun e => decide (e.2 = q)) =
        l.filter (fun e => decide (e.2 = q)) := by
  intro l
  induction l with
  | nil => simp [insertDesc, hq]
  | cons y t ih =>
    simp only [insertDesc]
    split_ifs with h
    · rw [List.filter_cons]
      simp [hq]
    · rw [List.filter_cons, List.filter_cons, ih]

/-- Stability: within every percentage class, the sort preserves the original
relative order. -/
theorem sortDesc_filter (q : ℚ) :
    ∀ l : List (RGBInt × ℚ),
      (sortDesc l).filter (fun e => decide (e.2 = q)) =
        l.filter (fun e => decide (e.2 = q)) := by
  intro l
  induction l with
  | nil => simp [sortDesc]
  | cons x t ih =>
    show (insertDesc x (sortDesc t)).filter _ = _
    by_cases hx : x.2 = q
    · subst hx
      rw [insertDesc_filter_self, ih, List.filter_cons]
      simp
    · rw [insertDesc_filter_other x q hx, ih, List.filter_cons]
      simp [hx]

/-- Sorting preserves length. -/
theorem sortDesc_length (l : List (RGBInt × ℚ)) :
    (sortDesc l).length = l.length := (sortDesc_perm l).length_eq

/-- The running best index stays below the running position. -/
theorem nearestIdxAux_lt (p : RGBNat) :
    ∀ (t : List RGBRat) (i bi : ℕ) (bd : ℚ), bi < i →
      nearestIdxAux p t i bi bd < i + t.length := by
  intro t
  induction t with
  | nil => intro i bi bd h; simpa [nearestIdxAux] using h
  | cons c s ih =>
    intro i bi bd h
    simp only [nearestIdxAux]
    split_ifs
    · have := ih (i + 1) i (sqDistQ p c) (by omega)
      simpa [Nat.add_assoc] using by omega
    · have := ih (i + 1) bi bd (by omega)
      simpa [Nat.add_assoc] using by omega

/-- Nearest-centroid assignment yields an index below the centroid count. -/
theorem nearestIdx_lt (p : RGBNat) (cs : List RGBRat) (h : cs ≠ []) :
    nearestIdx p cs < cs.length := by
  cases cs with
  | nil => exact absurd rfl h
  | cons c t =>
    have := nearestIdxAux_lt p t 1 0 (sqDistQ p c) (by omega)
    simp only [nearestIdx, List.length_cons]
    omega

/-- The update step returns exactly `k` centroids. -/
theorem updateCenters_length (k : ℕ) (data : List RGBNat) (ls : List ℕ)
    (cs : List RGBRat) : (updateCenters k data ls cs).length = k := by
  simp [updateCenters]

/-- Structural invariant of the Lloyd loop: `k` centroids, one label per
sample, labels in `[0, k)`. -/
theorem lloyd_inv (k : ℕ) (data : List RGBNat) (hk : 0 < k) :
    ∀ (fuel : ℕ) (cs : List RGBRat) (ls : List ℕ),
      cs.length = k → ls.length = data.length → (∀ x ∈ ls, x < k) →
      (lloyd k data fuel cs ls).1.length = k ∧
      (lloyd k data fuel cs ls).2.length = data.length ∧
      ∀ x ∈ (lloyd k data fuel cs ls).2, x < k := by
  intro fuel
  induction fuel with
  | zero => intro cs ls h1 h2 h3; exact ⟨h1, h2, h3⟩
  | succ fuel ih =>
    intro cs ls h1 h2 h3
    have hcs' : (updateCenters k data ls cs).length = k := updateCenters_length ..
    have hne : updateCenters k data ls cs ≠ [] := by
      intro he; rw [he] at hcs'; simp at hcs'; omega
    have hls' : ∀ x ∈ data.map (fun p => nearestIdx p (updateCenters k data ls cs)), x < k := by
      intro x hx
      obtain ⟨p, _, hp⟩ := List.mem_map.mp hx
      have hlt := nearestIdx_lt p _ hne
      rw [hcs'] at hlt
      rw [← hp]
      exact hlt
    simp only [lloyd]
    split_ifs
    · exact ⟨hcs', by simp, hls'⟩
    · exact ih _ _ hcs' (by simp) hls'

/-- Structural facts about a successful `KMeans.fit`. -/
theorem kmeansFit_spec (seed k : ℕ) (data : List RGBNat) (cs : List RGBRat)
    (ls : List ℕ) (h : kmeansFit seed k data = .ok (cs, ls)) :
    cs.length = k ∧ ls.length = data.length ∧ (∀ x ∈ ls, x < k) ∧
    1 ≤ k ∧ k ≤ data.length := by
  rw [kmeansFit] at h
  split_ifs at h with hk hn
  have hk1 : 0 < k := by omega
  have hinit : (initCenters seed k data).length = k := by simp [initCenters]
  have hinitne : initCenters seed k data ≠ [] := by
    intro he; rw [he] at hinit; simp at hinit; omega
  have hl0 : ∀ x ∈ data.map (fun p => nearestIdx p (initCenters seed k data)), x < k := by
    intro x hx
    obtain ⟨p, _, hp⟩ := List.mem_map.mp hx
    have hlt := nearestIdx_lt p _ hinitne
    rw [hinit] at hlt
    rw [← hp]
    exact hlt
  have := lloyd_inv k data hk1 300 (initCenters seed k data)
    (data.map (fun p => nearestIdx p (initCenters seed k data)))
    hinit (by simp) hl0
  have hres : lloyd k data 300 (initCenters seed k data)
      (data.map (fun p => nearestIdx p (initCenters seed k data))) = (cs, ls) := by
    simpa using h
  rw [hres] at this
  exact ⟨this.1, this.2.1, this.2.2, by omega, by omega⟩

/-- `KMeans.fit` succeeds whenever there are at least as many samples as
clusters. -/
theorem kmeansFit_isOk (seed k : ℕ) (data : List RGBNat) (h1 : 1 ≤ k)
    (h2 : k ≤ data.length) : ∃ r, kmeansFit seed k data = .ok r := by
  refine ⟨lloyd k data 300 (initCenters seed k data)
    (data.map (fun p => nearestIdx p (initCenters seed k data))), ?_⟩
  rw [kmeansFit, if_neg (by omega), if_neg (by omega)]

/-- Summing the indicator of `a` over `range k` when `a < k`. -/
theorem sum_indicator_of_lt :
    ∀ (k a : ℕ), a < k →
      ((List.range k).map (fun i => if a == i then (1 : ℕ) else 0)).sum = 1 := by
  intro k
  induction k with
  | zero => intro a h; omega
  | succ k ih =>
    intro a h
    rw [List.range_succ, List.map_append, List.sum_append]
    by_cases hak : a = k
    · subst hak
      have hz : ((List.range a).map (fun i => if a == i then (1 : ℕ) else 0)).sum = 0 := by
        rw [List.sum_eq_zero]
        intro x hx
        obtain ⟨i, hi, hcond⟩ := List.mem_map.mp hx
        have : i < a := List.mem_range.mp hi
        simp only [← hcond]
        have : (a == i) = false := by
          rw [beq_eq_false_iff_ne]; omega
        rw [this]
        rfl
      rw [hz]
      simp
    · rw [ih a (by omega)]
      have : (a == k) = false := by rw [beq_eq_false_iff_ne]; omega
      simp only [this, List.map_cons, List.map_nil, List.sum_cons, List.sum_nil]
      simp

/-- Counting each cluster index over `range k` accounts for every label. -/
theorem count_range_sum :
    ∀ (ls : List ℕ) (k : ℕ), (∀ x ∈ ls, x < k) →
      ((List.range k).map (fun i => List.count i ls)).sum = ls.length := by
  intro ls
  induction ls with
  | nil => intro k _; simp [List.count_nil]
  | cons a t ih =>
    intro k hk
    have ha : a < k := hk a (List.mem_cons_self a t)
    simp only [List.count_cons]
    rw [List.sum_map_add]
    rw [ih k (fun x hx => hk x (List.mem_cons_of_mem a hx))]
    rw [sum_indicator_of_lt k a ha]
    simp

/-- Casting a sum of naturals into the rationals, mapwise. -/
theorem sum_map_castQ (f : ℕ → ℕ) :
    ∀ l : List ℕ, (l.map (fun i => ((f i : ℕ) : ℚ))).sum = (((l.map f).sum : ℕ) : ℚ) := by
  intro l
  induction l with
  | nil => simp
  | cons a t ih => simp [ih]

/-- Percentage conservation at the `labels` level: the per-cluster
percentages sum to exactly 100 when every label is in range. -/
theorem percentages_sum (ls : List ℕ) (k : ℕ) (hne : ls ≠ [])
    (hlt : ∀ x ∈ ls, x < k) : (percentages ls k).sum = 100 := by
  have hn0 : ls.length ≠ 0 := by
    intro h; exact hne (List.length_eq_zero.mp h)
  have hn : (ls.length : ℚ) ≠ 0 := Nat.cast_ne_zero.mpr hn0
  unfold percentages
  rw [List.sum_map_mul_right]
  simp only [div_eq_mul_inv]
  rw [List.sum_map_mul_right]
  have hcast : ((List.range k).map (fun i => (List.count i ls : ℚ))).sum
      = ((ls.length : ℕ) : ℚ) := by
    rw [sum_map_castQ (fun i => List.count i ls) (List.range k),
      count_range_sum ls k hlt]
  rw [hcast]
  field_simp

/-- Structural facts about a successful `clusterInfo`: exactly `k` entries,
percentages summing to exactly 100, and the validity bounds on `k`. -/
theorem clusterInfo_ok (e : ℕ) (p : List RGBNat) (k : ℕ)
    (pre : List (RGBInt × ℚ)) (h : clusterInfo e p k = .ok pre) :
    pre.length = k ∧ (pre.map (fun x => x.2)).sum = 100 ∧
    1 ≤ k ∧ k ≤ p.length := by
  rw [clusterInfo] at h
  rcases hk : kmeansFit ((some 42).getD e) k p with msg | r
  · rw [hk] at h; simp [Except.map] at h
  · obtain ⟨cs, ls⟩ := r
    rw [hk] at h
    simp only [Except.map, Except.ok.injEq] at h
    obtain ⟨h1, h2, h3, h4, h5⟩ := kmeansFit_spec _ _ _ _ _ hk
    have hplen : (percentages ls k).length = k := by simp [percentages]
    have hclen : (cs.map pyIntRGB).length = k := by simp [h1]
    have hlsne : ls ≠ [] := by
      apply List.length_pos.mp
      omega
    refine ⟨?_, ?_, h4, by omega⟩
    · rw [← h, List.length_zip, hclen, hplen]
      simp
    · rw [← h, List.map_snd_zip _ _ (by rw [hclen, hplen])]
      exact percentages_sum ls k hlsne h3

/-- `clusterInfo` succeeds whenever `1 ≤ k ≤ len(pixels)`. -/
theorem clusterInfo_isOk (e : ℕ) (p : List RGBNat) (k : ℕ) (h1 : 1 ≤ k)
    (h2 : k ≤ p.length) : ∃ pre, clusterInfo e p k = .ok pre := by
  obtain ⟨r, hr⟩ := kmeansFit_isOk ((some 42).getD e) k p h1 h2
  refine ⟨(r.1.map pyIntRGB).zip (percentages r.2 k), ?_⟩
  rw [clusterInfo, hr]
  rfl

/-- A successful ROI-variant `detect_colors` on a non-empty sample set is the
stable sort of a successful `clusterInfo`. -/
theorem detect_colors_ok (e : ℕ) (s : List RGBNat) (k : ℕ)
    (res : List (RGBInt × ℚ)) (hne : s ≠ [])
    (h : ClothingColorDetector.detect_colors e s k = .ok res) :
    ∃ pre, clusterInfo e s k = .ok pre ∧ res = sortDesc pre := by
  rw [ClothingColorDetector.detect_colors] at h
  rw [if_neg (by simpa [List.length_eq_zero] using hne)] at h
  rcases hc : clusterInfo e s k with msg | pre
  · rw [hc] at h; simp [Except.map] at h
  · rw [hc] at h
    simp only [Except.map, Except.ok.injEq] at h
    exact ⟨pre, rfl, h.symm⟩

/-- A successful whole-image-variant `detect_colors` is the stable sort of a
successful `clusterInfo` over all pixels. -/
theorem app_detect_colors_ok (e : ℕ) (img : Img) (k : ℕ)
    (res : List (RGBInt × ℚ))
    (h : ColorDetectionApp.detect_colors e img k = .ok res) :
    ∃ pre, clusterInfo e (reshapePixels img) k = .ok pre ∧
      res = sortDesc pre := by
  rw [ColorDetectionApp.detect_colors] at h
  rcases hc : clusterInfo e (reshapePixels img) k with msg | pre
  · rw [hc] at h; simp [Except.map] at h
  · rw [hc] at h
    simp only [Except.map, Except.ok.injEq] at h
    exact ⟨pre, rfl, h.symm⟩

/-- The ROI-variant `detect_colors` succeeds whenever `1 ≤ k ≤ len(samples)`. -/
theorem detect_colors_isOk (e : ℕ) (s : List RGBNat) (k : ℕ) (h1 : 1 ≤ k)
    (h2 : k ≤ s.length) :
    ∃ res, ClothingColorDetector.detect_colors e s k = .ok res := by
  obtain ⟨pre, hp⟩ := clusterInfo_isOk e s k h1 h2
  refine ⟨sortDesc pre, ?_⟩
  rw [ClothingColorDetector.detect_colors, if_neg (by omega), hp]
  rfl

/-- ROI bounds for a fraction in `(0, 1]`: the rectangle lies inside the
image, so numpy's slice normalization is the identity on its bounds. -/
theorem roiOf_bounds (H W : ℕ) (f : ℚ) (h0 : 0 < f) (h1 : f ≤ 1) :
    0 ≤ (roiOf H W f).width ∧ (roiOf H W f).width ≤ (W : ℤ) ∧
    0 ≤ (roiOf H W f).height ∧ (roiOf H W f).height ≤ (H : ℤ) ∧
    0 ≤ (roiOf H W f).x ∧ (roiOf H W f).x + (roiOf H W f).width ≤ (W : ℤ) ∧
    0 ≤ (roiOf H W f).y ∧ (roiOf H W f).y + (roiOf H W f).height ≤ (H : ℤ) := by
  have hw0 : (0 : ℚ) ≤ (W : ℚ) * (3 / 5) := by positivity
  have hh0 : (0 : ℚ) ≤ (H : ℚ) * f := mul_nonneg (by positivity) (le_of_lt h0)
  have hwW : (W : ℚ) * (3 / 5) ≤ (W : ℚ) := by
    calc (W : ℚ) * (3 / 5) ≤ (W : ℚ) * 1 :=
          mul_le_mul_of_nonneg_left (by norm_num) (by positivity)
      _ = (W : ℚ) := mul_one _
  have hhH : (H : ℚ) * f ≤ (H : ℚ) := by
    calc (H : ℚ) * f ≤ (H : ℚ) * 1 :=
          mul_le_mul_of_nonneg_left h1 (by positivity)
      _ = (H : ℚ) := mul_one _
  have hfw : pyInt ((W : ℚ) * (3 / 5)) = ⌊(W : ℚ) * (3 / 5)⌋ := by
    unfold pyInt; rw [if_pos hw0]
  have hfh : pyInt ((H : ℚ) * f) = ⌊(H : ℚ) * f⌋ := by
    unfold pyInt; rw [if_pos hh0]
  have hw1 : (0 : ℤ) ≤ ⌊(W : ℚ) * (3 / 5)⌋ := Int.floor_nonneg.mpr hw0
  have hw2 : ⌊(W : ℚ) * (3 / 5)⌋ ≤ (W : ℤ) := by
    have := Int.floor_le_floor hwW
    simpa [Int.floor_natCast] using this
  have hh1 : (0 : ℤ) ≤ ⌊(H : ℚ) * f⌋ := Int.floor_nonneg.mpr hh0
  have hh2 : ⌊(H : ℚ) * f⌋ ≤ (H : ℤ) := by
    have := Int.floor_le_floor hhH
    simpa [Int.floor_natCast] using this
  have hfd : ∀ a : ℤ, a.fdiv 2 = a / 2 := fun a => Int.fdiv_eq_ediv a (by norm_num)
  unfold roiOf
  simp only [hfw, hfh, hfd]
  refine ⟨hw1, hw2, hh1, hh2, ?_, ?_, ?_, ?_⟩ <;> omega

/-- For a fraction in `(0, 1]` the mask is true exactly on the ROI
rectangle. -/
theorem clothingMask_spec (H W : ℕ) (f : ℚ) (h0 : 0 < f) (h1 : f ≤ 1)
    (i j : ℕ) :
    clothingMask H W f i j = true ↔
      ((roiOf H W f).y ≤ (i : ℤ) ∧
       (i : ℤ) < (roiOf H W f).y + (roiOf H W f).height ∧
       (roiOf H W f).x ≤ (j : ℤ) ∧
       (j : ℤ) < (roiOf H W f).x + (roiOf H W f).width) := by
  obtain ⟨b1, b2, b3, b4, b5, b6, b7, b8⟩ := roiOf_bounds H W f h0 h1
  have hsy : sliceIdx H (roiOf H W f).y = (roiOf H W f).y := by
    unfold sliceIdx; rw [if_neg (by omega), min_eq_left (by omega)]
  have hsy2 : sliceIdx H ((roiOf H W f).y + (roiOf H W f).height) =
      (roiOf H W f).y + (roiOf H W f).height := by
    unfold sliceIdx; rw [if_neg (by omega), min_eq_left (by omega)]
  have hsx : sliceIdx W (roiOf H W f).x = (roiOf H W f).x := by
    unfold sliceIdx; rw [if_neg (by omega), min_eq_left (by omega)]
  have hsx2 : sliceIdx W ((roiOf H W f).x + (roiOf H W f).width) =
      (roiOf H W f).x + (roiOf H W f).width := by
    unfold sliceIdx; rw [if_neg (by omega), min_eq_left (by omega)]
  simp only [clothingMask, hsy, hsy2, hsx, hsx2, decide_eq_true_eq]

/-- A nonpositive stop bound makes the row (or column) slice empty. -/
theorem sliceIdx_nonpos_empty (n : ℕ) (rh : ℤ) (hrh : rh ≤ 0) (i : ℤ)
    (h1 : sliceIdx n (((n : ℤ) - rh).fdiv 2) ≤ i)
    (h2 : i < sliceIdx n (((n : ℤ) - rh).fdiv 2 + rh)) : False := by
  have hfd : ((n : ℤ) - rh).fdiv 2 = ((n : ℤ) - rh) / 2 :=
    Int.fdiv_eq_ediv _ (by norm_num)
  unfold sliceIdx at h1 h2
  rw [hfd] at h1 h2
  split_ifs at h1 h2 <;> omega

/-- For a nonpositive fraction the mask is everywhere false. -/
theorem clothingMask_nonpos (H W : ℕ) (f : ℚ) (hf : f ≤ 0) (i j : ℕ) :
    clothingMask H W f i j = false := by
  have hq : (H : ℚ) * f ≤ 0 := by
    calc (H : ℚ) * f ≤ (H : ℚ) * 0 :=
          mul_le_mul_of_nonneg_left hf (by positivity)
      _ = 0 := mul_zero _
  have hrh : pyInt ((H : ℚ) * f) ≤ 0 := by
    unfold pyInt
    split_ifs with hge
    · have : (H : ℚ) * f = 0 := le_antisymm hq hge
      rw [this]
      simp
    · exact Int.ceil_le.mpr (by simpa using hq)
  simp only [clothingMask, decide_eq_false_iff_not]
  rintro ⟨hc1, hc2, _, _⟩
  exact sliceIdx_nonpos_empty H (pyInt ((H : ℚ) * f)) hrh i hc1 hc2

/-- An everywhere-false mask selects no pixels. -/
theorem samplePixels_false (img : Img) (mask : ℕ → ℕ → Bool)
    (h : ∀ i j, mask i j = false) : samplePixels img mask = [] := by
  simp [samplePixels, h]

/-- A nonpositive fraction yields the empty analysis result (no error). -/
theorem analyze_nonpos (e : ℕ) (img : Img) (f : ℚ) (hf : f ≤ 0) :
    analyze e img f = .ok [] := by
  unfold analyze
  rw [samplePixels_false img _ (clothingMask_nonpos img.h img.w f hf)]
  rfl

/-- The name produced by the minimum-search loop over a non-empty palette is
the name of an entry achieving the minimum squared distance, with every
strictly earlier entry strictly farther. -/
theorem nearest_name_spec (pal : List (String × RGBInt)) (hne : pal ≠ [])
    (c : RGBInt) :
    ∃ (i : ℕ) (hi : i < pal.length),
      nameLoop c pal none "Unknown" = (pal.get ⟨i, hi⟩).1 ∧
      (∀ e ∈ pal, sqDist c (pal.get ⟨i, hi⟩).2 ≤ sqDist c e.2) ∧
      (∀ e ∈ pal.take i, sqDist c (pal.get ⟨i, hi⟩).2 < sqDist c e.2) := by
  rcases hf : firstNearest c pal with _ | ⟨d, n⟩
  · exact absurd (firstNearest_eq_none c pal hf) hne
  · obtain ⟨i, hi, hname, hdist, hmin, hstrict⟩ := firstNearest_spec c pal d n hf
    refine ⟨i, hi, ?_, ?_, ?_⟩
    · rw [nameLoop_none, hf]
      exact hname.symm
    · intro e he
      rw [hdist]
      exact hmin e he
    · intro e he
      rw [hdist]
      exact hstrict e he

/-- C5: `rgb_to_color_name` returns the name of the palette entry with
minimum squared Euclidean distance to the input RGB, breaking ties in favor
of the earliest-declared entry, in both the 20-color (`i2.py`) and 14-color
(`image.py`) palette variants; in particular, on every palette entry's own
RGB it returns that entry's own name. -/
theorem spec_C5 :
    (∀ c : RGBInt,
      ∃ (i : ℕ) (hi : i < ClothingColorDetector.colors.length),
        ClothingColorDetector.rgb_to_color_name c =
          (ClothingColorDetector.colors.get ⟨i, hi⟩).1 ∧
        (∀ e ∈ ClothingColorDetector.colors,
          sqDist c (ClothingColorDetector.colors.get ⟨i, hi⟩).2 ≤ sqDist c e.2) ∧
        (∀ e ∈ ClothingColorDetector.colors.take i,
          sqDist c (ClothingColorDetector.colors.get ⟨i, hi⟩).2 < sqDist c e.2)) ∧
    (∀ c : RGBInt,
      ∃ (i : ℕ) (hi : i < ColorDetectionApp.colors.length),
        ColorDetectionApp.rgb_to_color_name c =
          (ColorDetectionApp.colors.get ⟨i, hi⟩).1 ∧
        (∀ e ∈ ColorDetectionApp.colors,
          sqDist c (ColorDetectionApp.colors.get ⟨i, hi⟩).2 ≤ sqDist c e.2) ∧
        (∀ e ∈ ColorDetectionApp.colors.take i,
          sqDist c (ColorDetectionApp.colors.get ⟨i, hi⟩).2 < sqDist c e.2)) ∧
    (∀ e ∈ ClothingColorDetector.colors,
      ClothingColorDetector.rgb_to_color_name e.2 = e.1) ∧
    (∀ e ∈ ColorDetectionApp.colors,
      ColorDetectionApp.rgb_to_color_name e.2 = e.1) := by
  refine ⟨?_, ?_, ?_, ?_⟩
  · intro c
    exact nearest_name_spec ClothingColorDetector.colors (by decide) c
  · intro c
    exact nearest_name_spec ColorDetectionApp.colors (by decide) c
  · decide
  · decide

theorem spec_C5_witness :
    ClothingColorDetector.rgb_to_color_name (0, 100, 0) = "Dark Green" ∧
    ColorDetectionApp.rgb_to_color_name (0, 0, 255) = "Blue" :=
  ⟨spec_C5.2.2.1 ("Dark Green", ((0 : ℤ), (100 : ℤ), (0 : ℤ))) (by decide),
   spec_C5.2.2.2 ("Blue", ((0 : ℤ), (0 : ℤ), (255 : ℤ))) (by decide)⟩

/-- C1 counterexample: on a sample set with `0 < len(samples) < k` the
extractor does not reduce the cluster count; the clustering step rejects the
input, so `detect_colors` propagates an error instead of returning. -/
theorem spec_C1_counterexample :
    ClothingColorDetector.detect_colors 0 [((0 : ℕ), (0 : ℕ), (0 : ℕ))] 3 =
      .error "n_samples should be at least n_clusters" := rfl

/-- C1 (amended): for every sample set with `0 < len(samples) < k`,
`detect_colors` raises (the `n_samples >= n_clusters` validation of the
clustering step fails) and produces no result; for a sample set with at
least `k` samples but fewer than `k` distinct colors (e.g. n all-black
samples), it returns without crashing and the percentages sum to 100. -/
theorem spec_C1 :
    (∀ (e k : ℕ) (s : List RGBNat), 0 < s.length → s.length < k →
      ∃ msg, ClothingColorDetector.detect_colors e s k = .error msg) ∧
    (∀ (e : ℕ) (c : RGBNat) (n : ℕ), 3 ≤ n →
      ∃ res, ClothingColorDetector.detect_colors e (List.replicate n c) 3 = .ok res ∧
        (res.map (fun x => x.2)).sum = 100) := by
  constructor
  · intro e k s h1 h2
    refine ⟨"n_samples should be at least n_clusters", ?_⟩
    rw [ClothingColorDetector.detect_colors, if_neg (by omega), clusterInfo,
      kmeansFit, if_neg (by omega), if_pos h2]
    rfl
  · intro e c n h3
    obtain ⟨res, hres⟩ := detect_colors_isOk e (List.replicate n c) 3 (by omega)
      (by simpa using h3)
    refine ⟨res, hres, ?_⟩
    obtain ⟨pre, hpre, hsort⟩ := detect_colors_ok e _ 3 res
      (by simp [List.replicate]; omega) hres
    obtain ⟨_, hsum, _, _⟩ := clusterInfo_ok e _ 3 pre hpre
    rw [hsort]
    exact (((sortDesc_perm pre).map _).sum_eq).trans hsum

theorem spec_C1_witness :
    (∃ msg, ClothingColorDetector.detect_colors 0
      [((7 : ℕ), (7 : ℕ), (7 : ℕ)), (3, 3, 3)] 3 = .error msg) ∧
    (∃ res, ClothingColorDetector.detect_colors 0
      (List.replicate 100 ((0 : ℕ), (0 : ℕ), (0 : ℕ))) 3 = .ok res ∧
      (res.map (fun x => x.2)).sum = 100) :=
  ⟨spec_C1.1 0 3 [(7, 7, 7), (3, 3, 3)] (by decide) (by decide),
   spec_C1.2 0 (0, 0, 0) 100 (by norm_num)⟩

/-- C2 counterexample: the whole-image variant (`ColorDetectionApp
.detect_colors`, `src/image.py`) has no empty-sample guard, so on the empty
sample set (a zero-pixel image) it raises from the clustering step instead
of returning an empty list. -/
theorem spec_C2_counterexample :
    ColorDetectionApp.detect_colors 0 ⟨0, 0, fun _ _ => (0, 0, 0)⟩ 3 =
      .error "n_samples should be at least n_clusters" := rfl

/-- C2 (amended): the ROI variant (`ClothingColorDetector.detect_colors`,
`src/i2.py`) returns an empty list immediately on the empty sample set, and
an all-false mask therefore yields an empty result rather than an error; the
whole-image variant (`src/image.py`) performs no such check and its
clustering step raises on an empty pixel set. -/
theorem spec_C2 :
    (∀ (e k : ℕ), ClothingColorDetector.detect_colors e [] k = .ok []) ∧
    (∀ (e : ℕ) (img : Img) (mask : ℕ → ℕ → Bool), (∀ i j, mask i j = false) →
      ClothingColorDetector.detect_colors e (samplePixels img mask) 3 = .ok []) ∧
    (∀ (e k : ℕ) (img : Img), reshapePixels img = [] → 1 ≤ k →
      ∃ msg, ColorDetectionApp.detect_colors e img k = .error msg) := by
  refine ⟨fun e k => rfl, ?_, ?_⟩
  · intro e img mask h
    rw [samplePixels_false img mask h]
    rfl
  · intro e k img hre hk
    refine ⟨"n_samples should be at least n_clusters", ?_⟩
    rw [ColorDetectionApp.detect_colors, clusterInfo, hre, kmeansFit,
      if_neg (by omega), if_pos (by simp; omega)]
    rfl

theorem spec_C2_witness :
    ClothingColorDetector.detect_colors 0 [] 3 = .ok [] ∧
    ClothingColorDetector.detect_colors 0
      (samplePixels ⟨2, 2, fun _ _ => (1, 1, 1)⟩ (fun _ _ => false)) 3 = .ok [] ∧
    (∃ msg, ColorDetectionApp.detect_colors 0
      ⟨5, 0, fun _ _ => (0, 0, 0)⟩ 3 = .error msg) :=
  ⟨spec_C2.1 0 3,
   spec_C2.2.1 0 ⟨2, 2, fun _ _ => (1, 1, 1)⟩ (fun _ _ => false) (fun _ _ => rfl),
   spec_C2.2.2 0 3 ⟨5, 0, fun _ _ => (0, 0, 0)⟩ rfl (by norm_num)⟩

/-- C3: for every non-empty sample set on which `detect_colors` returns, the
returned percentages sum to exactly 100 (floats modelled as exact rationals):
each percentage is `100 * count / total` and every sample is assigned exactly
one label in `[0, k)`.  Both variants. -/
theorem spec_C3 :
    (∀ (e k : ℕ) (s : List RGBNat) (res : List (RGBInt × ℚ)), s ≠ [] →
      ClothingColorDetector.detect_colors e s k = .ok res →
      (res.map (fun x => x.2)).sum = 100) ∧
    (∀ (e k : ℕ) (img : Img) (res : List (RGBInt × ℚ)),
      ColorDetectionApp.detect_colors e img k = .ok res →
      (res.map (fun x => x.2)).sum = 100) := by
  constructor
  · intro e k s res hne h
    obtain ⟨pre, hpre, hsort⟩ := detect_colors_ok e s k res hne h
    obtain ⟨_, hsum, _, _⟩ := clusterInfo_ok e s k pre hpre
    rw [hsort]
    exact (((sortDesc_perm pre).map _).sum_eq).trans hsum
  · intro e k img res h
    obtain ⟨pre, hpre, hsort⟩ := app_detect_colors_ok e img k res h
    obtain ⟨_, hsum, _, _⟩ := clusterInfo_ok e _ k pre hpre
    rw [hsort]
    exact (((sortDesc_perm pre).map _).sum_eq).trans hsum

theorem spec_C3_witness :
    ∃ res, ClothingColorDetector.detect_colors 0
      [((1 : ℕ), (2 : ℕ), (3 : ℕ)), (4, 5, 6), (7, 8, 9)] 3 = .ok res ∧
      (res.map (fun x => x.2)).sum = 100 := by
  obtain ⟨res, hres⟩ := detect_colors_isOk 0
    [((1 : ℕ), (2 : ℕ), (3 : ℕ)), (4, 5, 6), (7, 8, 9)] 3 (by norm_num) (by norm_num)
  exact ⟨res, hres, spec_C3.1 0 3 _ res (by simp) hres⟩

/-- C4: every result list of `detect_colors` is sorted by percentage in
descending order (`percentage[i] >= percentage[i+1]` for adjacent pairs), and
within each percentage class the original cluster-index order of the
pre-sort `color_info` list is preserved (stable sort).  Both variants. -/
theorem spec_C4 :
    (∀ (e k : ℕ) (s : List RGBNat) (res : List (RGBInt × ℚ)), s ≠ [] →
      ClothingColorDetector.detect_colors e s k = .ok res →
      List.Chain' (fun a b => b.2 ≤ a.2) res ∧
      ∃ pre, clusterInfo e s k = .ok pre ∧
        ∀ q : ℚ, res.filter (fun x => decide (x.2 = q)) =
          pre.filter (fun x => decide (x.2 = q))) ∧
    (∀ (e k : ℕ) (img : Img) (res : List (RGBInt × ℚ)),
      ColorDetectionApp.detect_colors e img k = .ok res →
      List.Chain' (fun a b => b.2 ≤ a.2) res ∧
      ∃ pre, clusterInfo e (reshapePixels img) k = .ok pre ∧
        ∀ q : ℚ, res.filter (fun x => decide (x.2 = q)) =
          pre.filter (fun x => decide (x.2 = q))) := by
  constructor
  · intro e k s res hne h
    obtain ⟨pre, hpre, hsort⟩ := detect_colors_ok e s k res hne h
    subst hsort
    exact ⟨(sortDesc_pairwise pre).chain', pre, hpre, fun q => sortDesc_filter q pre⟩
  · intro e k img res h
    obtain ⟨pre, hpre, hsort⟩ := app_detect_colors_ok e img k res h
    subst hsort
    exact ⟨(sortDesc_pairwise pre).chain', pre, hpre, fun q => sortDesc_filter q pre⟩

theorem spec_C4_witness :
    ∃ res, ClothingColorDetector.detect_colors 0
      [((9 : ℕ), (9 : ℕ), (9 : ℕ)), (1, 1, 1), (1, 1, 1), (1, 1, 1)] 3 = .ok res ∧
      List.Chain' (fun a b => b.2 ≤ a.2) res := by
  obtain ⟨res, hres⟩ := detect_colors_isOk 0
    [((9 : ℕ), (9 : ℕ), (9 : ℕ)), (1, 1, 1), (1, 1, 1), (1, 1, 1)] 3
    (by norm_num) (by norm_num)
  exact ⟨res, hres, (spec_C4.1 0 3 _ res (by simp) hres).1⟩

/-- C10: for every non-empty sample set accepted by clustering, the result
list has exactly `n_colors` entries, because the percentage loop iterates
cluster indices `0..n_colors-1`; clusters with zero assigned samples are not
filtered out.  Both variants. -/
theorem spec_C10 :
    (∀ (e k : ℕ) (s : List RGBNat) (res : List (RGBInt × ℚ)), s ≠ [] →
      ClothingColorDetector.detect_colors e s k = .ok res → res.length = k) ∧
    (∀ (e k : ℕ) (img : Img) (res : List (RGBInt × ℚ)),
      ColorDetectionApp.detect_colors e img k = .ok res → res.length = k) := by
  constructor
  · intro e k s res hne h
    obtain ⟨pre, hpre, hsort⟩ := detect_colors_ok e s k res hne h
    obtain ⟨hlen, _, _, _⟩ := clusterInfo_ok e s k pre hpre
    rw [hsort, sortDesc_length, hlen]
  · intro e k img res h
    obtain ⟨pre, hpre, hsort⟩ := app_detect_colors_ok e img k res h
    obtain ⟨hlen, _, _, _⟩ := clusterInfo_ok e _ k pre hpre
    rw [hsort, sortDesc_length, hlen]

theorem spec_C10_witness :
    ∃ res, ClothingColorDetector.detect_colors 0
      (List.replicate 5 ((0 : ℕ), (0 : ℕ), (0 : ℕ))) 3 = .ok res ∧
      res.length = 3 := by
  obtain ⟨res, hres⟩ := detect_colors_isOk 0
    (List.replicate 5 ((0 : ℕ), (0 : ℕ), (0 : ℕ))) 3 (by norm_num) (by simp)
  exact ⟨res, hres, spec_C10.1 0 3 _ res (by simp) hres⟩

/-- C6: the region selector computes `roi_width = floor(0.6 * W)`,
`roi_height = floor(fraction * H)`, `roi_x = (W - roi_width) // 2`,
`roi_y = (H - roi_height) // 2`, and (for a fraction in `(0, 1]`) a mask
true exactly on rows `[roi_y, roi_y + roi_height)` and columns
`[roi_x, roi_x + roi_width)`; for a 1000×1000 image with fraction `0.4 = 2/5`
the true region is exactly rows `[300, 700)` and columns `[200, 800)`. -/
theorem spec_C6 (H W : ℕ) (f : ℚ) (h0 : 0 < f) (h1 : f ≤ 1) :
    ((roiOf H W f).width = ⌊(3 / 5 : ℚ) * (W : ℚ)⌋ ∧
     (roiOf H W f).height = ⌊f * (H : ℚ)⌋ ∧
     (roiOf H W f).x = ((W : ℤ) - (roiOf H W f).width).fdiv 2 ∧
     (roiOf H W f).y = ((H : ℤ) - (roiOf H W f).height).fdiv 2 ∧
     (∀ i j : ℕ, clothingMask H W f i j = true ↔
       ((roiOf H W f).y ≤ (i : ℤ) ∧
        (i : ℤ) < (roiOf H W f).y + (roiOf H W f).height ∧
        (roiOf H W f).x ≤ (j : ℤ) ∧
        (j : ℤ) < (roiOf H W f).x + (roiOf H W f).width))) ∧
    (∀ i j : ℕ, clothingMask 1000 1000 (2 / 5) i j = true ↔
      (300 ≤ i ∧ i < 700 ∧ 200 ≤ j ∧ j < 800)) := by
  constructor
  · refine ⟨?_, ?_, rfl, rfl, clothingMask_spec H W f h0 h1⟩
    · show pyInt ((W : ℚ) * (3 / 5)) = ⌊(3 / 5 : ℚ) * (W : ℚ)⌋
      unfold pyInt
      rw [if_pos (by positivity), mul_comm]
    · show pyInt ((H : ℚ) * f) = ⌊f * (H : ℚ)⌋
      unfold pyInt
      rw [if_pos (mul_nonneg (by positivity) (le_of_lt h0)), mul_comm]
  · have hh : (roiOf 1000 1000 (2 / 5)).height = 400 := by
      show pyInt ((1000 : ℚ) * (2 / 5)) = 400
      unfold pyInt
      rw [if_pos (by norm_num),
        show ((1000 : ℚ) * (2 / 5)) = ((400 : ℤ) : ℚ) by norm_num]
      exact Int.floor_intCast 400
    have hw : (roiOf 1000 1000 (2 / 5)).width = 600 := by
      show pyInt ((1000 : ℚ) * (3 / 5)) = 600
      unfold pyInt
      rw [if_pos (by norm_num),
        show ((1000 : ℚ) * (3 / 5)) = ((600 : ℤ) : ℚ) by norm_num]
      exact Int.floor_intCast 600
    have hy : (roiOf 1000 1000 (2 / 5)).y = 300 := by
      show (((1000 : ℕ) : ℤ) - (roiOf 1000 1000 (2 / 5)).height).fdiv 2 = 300
      rw [hh]
      decide
    have hx : (roiOf 1000 1000 (2 / 5)).x = 200 := by
      show (((1000 : ℕ) : ℤ) - (roiOf 1000 1000 (2 / 5)).width).fdiv 2 = 200
      rw [hw]
      decide
    intro i j
    rw [clothingMask_spec 1000 1000 (2 / 5) (by norm_num) (by norm_num) i j,
      hy, hh, hx, hw]
    constructor
    · rintro ⟨a, b, c, d⟩
      refine ⟨by omega, by omega, by omega, by omega⟩
    · rintro ⟨a, b, c, d⟩
      refine ⟨by omega, by omega, by omega, by omega⟩

theorem spec_C6_witness :
    (roiOf 10 10 (1 / 2)).height = ⌊(1 / 2 : ℚ) * (10 : ℚ)⌋ ∧
    (clothingMask 1000 1000 (2 / 5) 300 200 = true ↔
      (300 ≤ 300 ∧ 300 < 700 ∧ 200 ≤ 200 ∧ 200 < 800)) :=
  ⟨(spec_C6 10 10 (1 / 2) (by norm_num) (by norm_num)).1.2.1,
   (spec_C6 10 10 (1 / 2) (by norm_num) (by norm_num)).2 300 200⟩

/-- C7: the analysis pipeline is deterministic — its output does not depend
on the ambient randomness sklearn would consume, because `detect_colors`
pins `random_state=42`; two runs with different entropy (and hence any two
runs on identical inputs) produce identical results. -/
theorem spec_C7 (e₁ e₂ : ℕ) (img : Img) (f : ℚ) :
    analyze e₁ img f = analyze e₂ img f ∧
    (∀ (s : List RGBNat) (k : ℕ),
      ClothingColorDetector.detect_colors e₁ s k =
        ClothingColorDetector.detect_colors e₂ s k) ∧
    (∀ (im : Img) (k : ℕ),
      ColorDetectionApp.detect_colors e₁ im k =
        ColorDetectionApp.detect_colors e₂ im k) :=
  ⟨rfl, fun _ _ => rfl, fun _ _ => rfl⟩

/-- C8 counterexample: the fraction `0` lies outside `(0, 1]`, yet the core
raises no error and produces an analysis result (the empty list): no
`InvalidRegionFraction` validation exists in the code. -/
theorem spec_C8_counterexample :
    ¬(0 < (0 : ℚ) ∧ (0 : ℚ) ≤ 1) ∧
    analyze 0 ⟨10, 10, fun _ _ => (0, 0, 0)⟩ 0 = .ok [] :=
  ⟨by norm_num, analyze_nonpos 0 _ 0 (le_refl 0)⟩

/-- C8 (amended): the core performs no validation of the region fraction and
raises no error for fractions outside `(0, 1]`; a nonpositive fraction
yields an empty mask and hence the empty result list, and in the application
the slider restricts `update_roi` fractions to `[0.2, 0.8] ⊆ (0, 1]`, so
out-of-range fractions never arise from the UI. -/
theorem spec_C8 :
    (∀ (e : ℕ) (img : Img) (f : ℚ), f ≤ 0 → analyze e img f = .ok []) ∧
    (∀ v : ℕ, 20 ≤ v → v ≤ 80 →
      0 < ClothingColorDetector.update_roi v ∧
      ClothingColorDetector.update_roi v ≤ 1) := by
  constructor
  · intro e img f hf
    exact analyze_nonpos e img f hf
  · intro v h1 h2
    have hv1 : (20 : ℚ) ≤ (v : ℚ) := by exact_mod_cast h1
    have hv2 : (v : ℚ) ≤ 80 := by exact_mod_cast h2
    unfold ClothingColorDetector.update_roi
    constructor
    · apply div_pos (by linarith) (by norm_num)
    · rw [div_le_one (by norm_num)]
      linarith

theorem spec_C8_witness :
    analyze 0 ⟨4, 4, fun _ _ => (1, 1, 1)⟩ (-1) = .ok [] ∧
    (0 < ClothingColorDetector.update_roi 40 ∧
      ClothingColorDetector.update_roi 40 ≤ 1) :=
  ⟨spec_C8.1 0 ⟨4, 4, fun _ _ => (1, 1, 1)⟩ (-1) (by norm_num),
   spec_C8.2 40 (by norm_num) (by norm_num)⟩

/-- C9: `get_clothing_region` leaves the input image buffer unchanged: the
ROI rectangle is drawn only on a fresh copy, the returned display buffer is
exactly the rectangle-annotated copy of the input, the mask is a pure
function of the image dimensions and the fraction, and no buffer other than
the fresh one is touched. -/
theorem spec_C9 (hp : Heap) (bid : ℕ) (f : ℚ) (img : Img)
    (hmem : hp.mem bid = some img) (hvalid : bid < hp.next) :
    ∃ (hp' : Heap) (msk : ℕ → ℕ → Bool) (did : ℕ),
      ClothingColorDetector.get_clothing_region hp bid f = some (hp', msk, did) ∧
      hp'.mem bid = some img ∧
      did ≠ bid ∧
      hp'.mem did = some (drawRect img (roiOf img.h img.w f)) ∧
      msk = clothingMask img.h img.w f ∧
      (∀ b : ℕ, b ≠ did → hp'.mem b = hp.mem b) := by
  unfold ClothingColorDetector.get_clothing_region
  rw [hmem]
  refine ⟨_, _, hp.next, rfl, ?_, by omega, ?_, rfl, ?_⟩
  · show (if bid = hp.next then some (drawRect img (roiOf img.h img.w f))
      else if bid = hp.next then some img else hp.mem bid) = some img
    rw [if_neg (by omega), if_neg (by omega), hmem]
  · show (if hp.next = hp.next then some (drawRect img (roiOf img.h img.w f))
      else if hp.next = hp.next then some img else hp.mem hp.next) =
      some (drawRect img (roiOf img.h img.w f))
    rw [if_pos rfl]
  · intro b hb
    show (if b = hp.next then some (drawRect img (roiOf img.h img.w f))
      else if b = hp.next then some img else hp.mem b) = hp.mem b
    rw [if_neg hb, if_neg hb]

theorem spec_C9_witness :
    ∃ (hp' : Heap) (msk : ℕ → ℕ → Bool) (did : ℕ),
      ClothingColorDetector.get_clothing_region
        ⟨fun i => if i = 0 then some ⟨8, 8, fun _ _ => (10, 20, 30)⟩ else none, 1⟩
        0 (1 / 2) = some (hp', msk, did) ∧
      hp'.mem 0 = some ⟨8, 8, fun _ _ => (10, 20, 30)⟩ ∧
      did ≠ 0 ∧
      hp'.mem did = some (drawRect ⟨8, 8, fun _ _ => (10, 20, 30)⟩
        (roiOf 8 8 (1 / 2))) ∧
      msk = clothingMask 8 8 (1 / 2) ∧
      (∀ b : ℕ, b ≠ did →
        hp'.mem b = (if b = 0 then some ⟨8, 8, fun _ _ => (10, 20, 30)⟩ else none)) :=
  spec_C9 ⟨fun i => if i = 0 then some ⟨8, 8, fun _ _ => (10, 20, 30)⟩ else none, 1⟩
    0 (1 / 2) ⟨8, 8, fun _ _ => (10, 20, 30)⟩ rfl (by norm_num)
